import Mathlib

/-!
Verification development for the Solid Edge document discovery and property
synchronization engine (`src/services/solid_edge.py`).

The Python module is shallowly embedded: COM objects become explicit record
values (`Doc`, `SEApp`, `ComCollection`, ...), dynamic Python values become the
inductive `PyVal`, and each engine function becomes a total Lean function over
those records.  Host-side behaviour that the Python code can only observe
(whether a collection supports direct iteration, whether `Item(i)` raises) is
part of the record state.  Python string primitives (`strip`, `lower`,
`os.path.normcase`, `os.path.splitext`, `datetime.strptime` for the three
date patterns used by the module, `float(...)` parsing) are modelled by
explicit executable functions below.  Floats are modelled as exact rationals:
no claim in scope observes IEEE rounding, and `floatStr` is a simplified
rendering used only as an opaque shared primitive.
-/

namespace SEEngine

/-! ### Python string primitives -/

/-- Whitespace characters recognised by Python `str.strip()` (ASCII subset). -/
def isPyWs (c : Char) : Bool :=
  c = ' ' ∨ c = '\t' ∨ c = '\n' ∨ c = '\r' ∨ c = '\x0b' ∨ c = '\x0c'

/-- Model of Python `str.strip()` on character lists. -/
def stripL (l : List Char) : List Char :=
  ((l.dropWhile isPyWs).reverse.dropWhile isPyWs).reverse

/-- Model of Python `str.strip()`. -/
def pyStrip (s : String) : String :=
  String.mk (stripL s.toList)

/-- Model of Python `str.lower()` (ASCII case folding). -/
def pyLower (s : String) : String :=
  String.mk (s.toList.map Char.toLower)

/-- Model of `str.strip().lower()` as used for identity keys. -/
def strip_lower (s : String) : String :=
  pyLower (pyStrip s)

/-- Model of `ntpath.normcase`: replace `/` by `\` and lowercase. -/
def normcase (s : String) : String :=
  pyLower (String.mk (s.toList.map (fun c => if c = '/' then '\\' else c)))

/-- Substring containment test, modelling Python `needle in hay`. -/
def listContains (hay needle : List Char) : Bool :=
  hay.tails.any (fun t => needle.isPrefixOf t)

/-- Extension part of `ntpath.splitext`, on character lists.  The extension is
the suffix of the final path component from its last dot, except that a
component consisting only of leading dots has no extension. -/
def splitextExtL (l : List Char) : List Char :=
  let base := (l.reverse.takeWhile (fun c => ¬ (c = '\\' ∨ c = '/'))).reverse
  let p := base.reverse.span (fun c => c ≠ '.')
  match p.2 with
  | [] => []
  | _ :: beforeRev => if beforeRev.any (fun c => c ≠ '.') then '.' :: p.1.reverse else []

/-- Extension part of `ntpath.splitext` on strings. -/
def splitextExt (s : String) : String :=
  String.mk (splitextExtL s.toList)

/-! ### Python values -/

/-- Dynamic Python values that flow through the engine: `None`, booleans,
integers, floats (modelled as exact rationals), strings, and
`datetime.date` / `datetime.datetime` values. -/
inductive PyVal where
  | none : PyVal
  | bool : Bool → PyVal
  | int : Int → PyVal
  | float : ℚ → PyVal
  | str : String → PyVal
  | date : Nat → Nat → Nat → PyVal
  | datetime : Nat → Nat → Nat → Nat → Nat → Nat → PyVal
deriving DecidableEq

/-- Decimal digit character for `n % 10`-style values below ten. -/
def digitChar (n : Nat) : Char :=
  match n with
  | 0 => '0' | 1 => '1' | 2 => '2' | 3 => '3' | 4 => '4'
  | 5 => '5' | 6 => '6' | 7 => '7' | 8 => '8' | _ => '9'

/-- Two-digit zero-padded rendering (as in `strftime` `%m` / `%d`). -/
def render2L (n : Nat) : List Char :=
  [digitChar (n / 10), digitChar (n % 10)]

/-- Four-digit zero-padded rendering (as in `strftime` `%Y`). -/
def render4L (n : Nat) : List Char :=
  [digitChar (n / 1000), digitChar (n / 100 % 10), digitChar (n / 10 % 10), digitChar (n % 10)]

/-- Character list of `strftime("%Y-%m-%d")`. -/
def ymdL (y m d : Nat) : List Char :=
  render4L y ++ '-' :: (render2L m ++ '-' :: render2L d)

/-- Model of `value.strftime("%Y-%m-%d")` for date-like values. -/
def strfYmd (y m d : Nat) : String :=
  String.mk (ymdL y m d)

/-- Simplified decimal rendering for the float model; an opaque shared
primitive standing in for CPython float `repr`. -/
def floatStr (q : ℚ) : String :=
  if q.den = 1 then toString q.num ++ ".0" else toString q.num ++ "/" ++ toString q.den

/-- Model of Python `str(value)`. -/
def pyStr : PyVal → String
  | PyVal.none => "None"
  | PyVal.bool true => "True"
  | PyVal.bool false => "False"
  | PyVal.int n => toString n
  | PyVal.float q => floatStr q
  | PyVal.str s => s
  | PyVal.date y m d => strfYmd y m d
  | PyVal.datetime y m d hh mm ss =>
      strfYmd y m d ++ " " ++ String.mk (render2L hh) ++ ":" ++ String.mk (render2L mm)
        ++ ":" ++ String.mk (render2L ss)

/-- Model of Python truthiness for the values in scope. -/
def pyTruthy : PyVal → Bool
  | PyVal.none => false
  | PyVal.bool b => b
  | PyVal.int n => n ≠ 0
  | PyVal.float q => q ≠ 0
  | PyVal.str s => s ≠ ""
  | PyVal.date _ _ _ => true
  | PyVal.datetime _ _ _ _ _ _ => true

/-- Model of the idiom `str(value or "")`. -/
def strOrEmpty (v : PyVal) : String :=
  if pyTruthy v then pyStr v else ""

/-! ### Model of `float(value)` -/

/-- Numeric value of a digit list, most significant first. -/
def natOfDigits (l : List Char) : Nat :=
  l.foldl (fun a c => a * 10 + (c.toNat - 48)) 0

/-- Exponent suffix of a float literal (after `e` / `E`). -/
def parseExpTail (base : ℚ) (l : List Char) : Option ℚ :=
  match l with
  | '+' :: ds => if ds ≠ [] ∧ ds.all Char.isDigit then some (base * 10 ^ natOfDigits ds) else Option.none
  | '-' :: ds => if ds ≠ [] ∧ ds.all Char.isDigit then some (base / 10 ^ natOfDigits ds) else Option.none
  | ds => if ds ≠ [] ∧ ds.all Char.isDigit then some (base * 10 ^ natOfDigits ds) else Option.none

/-- Optional exponent part of a float literal. -/
def parseExpPart (base : ℚ) : List Char → Option ℚ
  | [] => some base
  | 'e' :: rest => parseExpTail base rest
  | 'E' :: rest => parseExpTail base rest
  | _ => Option.none

/-- Unsigned float literal: digits, optional fraction, optional exponent. -/
def parseUnsigned (l : List Char) : Option ℚ :=
  let p := l.span Char.isDigit
  match p.2 with
  | [] => if p.1 = [] then Option.none else some (natOfDigits p.1)
  | '.' :: rest2 =>
      let q := rest2.span Char.isDigit
      if p.1 = [] ∧ q.1 = [] then Option.none
      else parseExpPart ((natOfDigits p.1 : ℚ) + (natOfDigits q.1 : ℚ) / 10 ^ q.1.length) q.2
  | 'e' :: rest2 => if p.1 = [] then Option.none else parseExpTail (natOfDigits p.1) rest2
  | 'E' :: rest2 => if p.1 = [] then Option.none else parseExpTail (natOfDigits p.1) rest2
  | _ => Option.none

/-- Model of Python float string parsing (without `inf`/`nan`/underscores,
which never reach the engine's call sites). -/
def parseFloatL (l0 : List Char) : Option ℚ :=
  match stripL l0 with
  | '+' :: rest => parseUnsigned rest
  | '-' :: rest => (parseUnsigned rest).map Neg.neg
  | rest => parseUnsigned rest

/-- Model of the Python builtin `float(value)`; `Option.none` models the
`TypeError` / `ValueError` that the caller catches. -/
def pyFloat : PyVal → Option ℚ
  | PyVal.bool b => some (if b then 1 else 0)
  | PyVal.int n => some (n : ℚ)
  | PyVal.float q => some q
  | PyVal.str s => parseFloatL s.toList
  | _ => Option.none

/-! ### Model of `datetime.strptime` for the three engine date patterns -/

/-- Gregorian leap-year test, as in Python `datetime`. -/
def isLeap (y : Nat) : Bool :=
  y % 4 = 0 ∧ (y % 100 ≠ 0 ∨ y % 400 = 0)

/-- Days in a month, as validated by the `datetime` constructor. -/
def daysInMonth (y m : Nat) : Nat :=
  if m = 2 then (if isLeap y then 29 else 28)
  else if m = 4 ∨ m = 6 ∨ m = 9 ∨ m = 11 then 30
  else 31

/-- Calendar validity enforced by `datetime.strptime` results. -/
def validYMD (y m d : Nat) : Bool :=
  1 ≤ y ∧ y ≤ 9999 ∧ 1 ≤ m ∧ m ≤ 12 ∧ 1 ≤ d ∧ d ≤ daysInMonth y m

/-- Split a character list at every occurrence of `c`. -/
def splitOnChar (c : Char) : List Char → List (List Char)
  | [] => [[]]
  | x :: xs =>
    if x = c then [] :: splitOnChar c xs
    else
      match splitOnChar c xs with
      | [] => [[x]]
      | h :: t => (x :: h) :: t

/-- Split into exactly three fields on `sep`, else fail. -/
def split3 (sep : Char) (l : List Char) : Option (List Char × List Char × List Char) :=
  match splitOnChar sep l with
  | [a, b, c] => some (a, b, c)
  | _ => Option.none

/-- A `%Y` field: exactly four digits. -/
def fieldNat4 (f : List Char) : Option Nat :=
  if f.length = 4 ∧ f.all Char.isDigit then some (natOfDigits f) else Option.none

/-- A `%m` / `%d` field: one or two digits. -/
def fieldNat12 (f : List Char) : Option Nat :=
  if 1 ≤ f.length ∧ f.length ≤ 2 ∧ f.all Char.isDigit then some (natOfDigits f) else Option.none

/-- Package a parsed triple subject to calendar validation. -/
def mkValidated (y m d : Nat) : Option (Nat × Nat × Nat) :=
  if validYMD y m d then some (y, m, d) else Option.none

/-- `strptime(text, "%Y-%m-%d")`, returning the date triple. -/
def parseYMDL (l : List Char) : Option (Nat × Nat × Nat) := do
  let f ← split3 '-' l
  let y ← fieldNat4 f.1
  let m ← fieldNat12 f.2.1
  let d ← fieldNat12 f.2.2
  mkValidated y m d

/-- `strptime(text, "%m/%d/%Y")`, returning the date triple. -/
def parseMDYL (l : List Char) : Option (Nat × Nat × Nat) := do
  let f ← split3 '/' l
  let m ← fieldNat12 f.1
  let d ← fieldNat12 f.2.1
  let y ← fieldNat4 f.2.2
  mkValidated y m d

/-- `strptime(text, "%d/%m/%Y")`, returning the date triple. -/
def parseDMYL (l : List Char) : Option (Nat × Nat × Nat) := do
  let f ← split3 '/' l
  let d ← fieldNat12 f.1
  let m ← fieldNat12 f.2.1
  let y ← fieldNat4 f.2.2
  mkValidated y m d

/-- First successful parse of the ordered pattern list
`%Y-%m-%d`, `%m/%d/%Y`, `%d/%m/%Y`, as a date triple. -/
def firstDateTriple (l : List Char) : Option (Nat × Nat × Nat) :=
  match parseYMDL l with
  | some t => some t
  | Option.none =>
    match parseMDYL l with
    | some t => some t
    | Option.none => parseDMYL l

/-- First successful parse of the ordered pattern list, as the `datetime`
value produced by `strptime`. -/
def firstDateParse (l : List Char) : Option PyVal :=
  match firstDateTriple l with
  | some t => some (PyVal.datetime t.1 t.2.1 t.2.2 0 0 0)
  | Option.none => Option.none

/-! ### COM data model

A `ComCollection` records the underlying items together with how the host
exposes them: whether Python iteration is supported, the value of the `Count`
attribute (`Option.none` models an absent attribute), and which 1-based
`Item(i)` calls succeed (`itemOk i = false` models a call that raises). -/

structure ComCollection (α : Type) where
  items : List α
  supportsIter : Bool
  countAttr : Option Int
  itemOk : Nat → Bool

/-- One custom property COM object: `Name` and `Value` attributes. -/
structure CProp where
  pname : String
  pvalue : PyVal
deriving DecidableEq

/-- One property set COM object: its `Name` and its property collection. -/
structure PropSet where
  psName : String
  entries : ComCollection CProp

/-- The `Properties` COM object of a document: the collection of property
sets, plus the result of the `Item("Custom")` lookup (`Option.none` models a
raising lookup). -/
structure PropsCollection where
  sets : ComCollection PropSet
  customItem : Option PropSet

/-- A document COM object.  `Option.none` attribute fields model attributes
that are absent, so that `getattr(document, attr, default)` takes its
default. -/
structure Doc where
  nameAttr : Option String
  fullNameAttr : Option String
  typeAttr : Option Int
  propsAttr : Option PropsCollection

/-- The Solid Edge application COM object: its `Documents` collection
attribute and its `ActiveDocument` attribute. -/
structure SEApp where
  documentsAttr : Option (ComCollection Doc)
  activeDocument : Option Doc

/-- Result row of the enumerator (`models.DocumentInfo`). -/
structure DocumentInfo where
  name : String
  full_name : String
  document_type : String
  is_active : Bool
deriving DecidableEq

/-- Entry of the custom-property dictionaries exchanged with the UI. -/
structure CustomEntry where
  name : String
  type : String
  value : PyVal
deriving DecidableEq

/-! ### Collection iteration (`_iter_documents`, `_iter_com_collection`) -/

/-- Model of `_iter_documents`: native iteration when supported, otherwise the
1-based `Count`/`Item` protocol where a raising `Item(index)` is skipped.
`int(getattr(collection, "Count", 0) or 0)` becomes
`(countAttr.getD 0).toNat` (negative counts give an empty range). -/
def _iter_documents (application : SEApp) : List Doc :=
  match application.documentsAttr with
  | Option.none => []
  | some documents_collection =>
    if documents_collection.supportsIter then documents_collection.items
    else
      (List.range' 1 (documents_collection.countAttr.getD 0).toNat).filterMap
        (fun index =>
          if documents_collection.itemOk index then documents_collection.items[index - 1]?
          else Option.none)

/-- Model of `_iter_com_collection`, same protocol as `_iter_documents`. -/
def _iter_com_collection {α : Type} (collection : Option (ComCollection α)) : List α :=
  match collection with
  | Option.none => []
  | some c =>
    if c.supportsIter then c.items
    else
      (List.range' 1 (c.countAttr.getD 0).toNat).filterMap
        (fun index => if c.itemOk index then c.items[index - 1]? else Option.none)

/-! ### Document classifier (`_resolve_document_type`) -/

/-- Model of `_resolve_document_type`.  The document handle is represented by
its raw `Type` attribute, the only field the function reads from it. -/
def _resolve_document_type (typeAttr : Option Int) (full_name display_name : String) : String :=
  let extension := pyLower (splitextExt (if full_name ≠ "" then full_name else display_name))
  if extension = ".par" ∨ extension = ".psm" then "Part"
  else if extension = ".asm" then "Assembly"
  else if extension = ".dft" then "Draft"
  else
    match typeAttr with
    | some 1 => "Part"
    | some 2 => "Assembly"
    | some 3 => "Draft"
    | _ => "Unknown"

/-! ### Stable sorting

Python `list.sort(key=k)` is a stable ascending sort by `k`.  Any stable sort
by a total preorder is extensionally unique, so it is modelled by
`List.insertionSort` over the key comparison (which inserts a later element
after earlier key-equal elements, hence is stable). -/

/-- Lexicographic byte-wise `≤` on character lists, modelling Python string
comparison of the (ASCII) keys in scope. -/
def strLeB : List Char → List Char → Bool
  | [], _ => true
  | _ :: _, [] => false
  | a :: as, b :: bs => a.toNat < b.toNat || (a.toNat = b.toNat && strLeB as bs)

/-- Comparison of two values through a sort key and a comparator on keys. -/
def keyRel {α κ : Type} (key : α → κ) (leB : κ → κ → Bool) : α → α → Prop :=
  fun a b => leB (key a) (key b) = true

instance {α κ : Type} (key : α → κ) (leB : κ → κ → Bool) : DecidableRel (keyRel key leB) :=
  fun _ _ => inferInstanceAs (Decidable (_ = true))

/-- Sort key of the Python tuple `(not item.is_active, item.name.lower())`. -/
def docKey (d : DocumentInfo) : Nat × List Char :=
  (if d.is_active then 0 else 1, (pyLower d.name).toList)

/-- Lexicographic comparison on `(Nat, chars)` sort keys. -/
def pairLeB (x y : Nat × List Char) : Bool :=
  x.1 < y.1 || (x.1 = y.1 && strLeB x.2 y.2)

/-- Sort key of the reader's `str(item.get("name", "")).lower()`. -/
def entryKey (e : CustomEntry) : List Char :=
  (pyLower e.name).toList

/-! ### Document enumerator (`get_open_documents`) -/

/-- Truthiness-guarded equality `(attr and value == attr)` used for the
active-document test in `get_open_documents`. -/
def optTruthyEq (attr : Option String) (value : String) : Bool :=
  match attr with
  | some t => t ≠ "" && value = t
  | Option.none => false

/-- Construction of one `DocumentInfo` row inside the enumeration loop. -/
def buildInfo (active_full_name active_name : Option String) (document : Doc) : DocumentInfo :=
  let name := document.nameAttr.getD "Untitled"
  let full_name := document.fullNameAttr.getD name
  let doc_type := _resolve_document_type document.typeAttr full_name name
  let is_active := optTruthyEq active_full_name full_name || optTruthyEq active_name name
  { name := name, full_name := full_name, document_type := doc_type, is_active := is_active }

/-- The enumerator's document list before the final sort: the loop over
`_iter_documents`, then the single-entry fallback synthesised from the
active document when the loop produced nothing. -/
def enumBuild (app : SEApp) : List DocumentInfo :=
  let active_name := app.activeDocument.bind (fun d => d.nameAttr)
  let active_full_name := app.activeDocument.bind (fun d => d.fullNameAttr)
  let documents := (_iter_documents app).map (buildInfo active_full_name active_name)
  match documents, app.activeDocument with
  | [], some active_document =>
    let fallback_name := active_document.nameAttr.getD "Untitled"
    let fallback_full_name := active_document.fullNameAttr.getD fallback_name
    [{ name := fallback_name, full_name := fallback_full_name,
       document_type :=
         _resolve_document_type active_document.typeAttr fallback_full_name fallback_name,
       is_active := true }]
  | documents, _ => documents

/-- Model of `get_open_documents`: build, sort by
`(not is_active, name.lower())` (stable), and return the list together with
the captured active document name. -/
def get_open_documents (app : SEApp) : List DocumentInfo × Option String :=
  (List.insertionSort (keyRel docKey pairLeB) (enumBuild app),
   app.activeDocument.bind (fun d => d.nameAttr))

/-! ### Identity matcher and activator -/

/-- Model of `_path_key`: empty for falsy input, else `normcase` + `strip`. -/
def _path_key (value : Option String) : String :=
  match value with
  | Option.none => ""
  | some s => if s = "" then "" else pyStrip (normcase s)

/-- `_path_key` applied to a string already in hand. -/
def pathKeyStr (s : String) : String :=
  _path_key (some s)

/-- Normalisation `str(target_name or "").strip().lower()`. -/
def nameKey (value : Option String) : String :=
  strip_lower (value.getD "")

/-- The scan loop of `activate_document_by_full_name`: the first document
matching by path (or by name when no path was supplied) is activated and
returned. -/
def activateScan (wanted_full wanted_name : String) : List Doc → Option Doc
  | [] => Option.none
  | document :: rest =>
    let full_name := pathKeyStr (document.fullNameAttr.getD "")
    let name := strip_lower (document.nameAttr.getD "")
    let matches_full := wanted_full ≠ "" ∧ full_name ≠ "" ∧ full_name = wanted_full
    let matches_name := wanted_full = "" ∧ wanted_name ≠ "" ∧ name = wanted_name
    if matches_full ∨ matches_name then some document
    else activateScan wanted_full wanted_name rest

/-- Model of `activate_document_by_full_name`; `true` iff some document was
matched (and activated). -/
def activate_document_by_full_name (app : SEApp) (target_full_name : Option String)
    (target_name : Option String) : Bool :=
  (activateScan (_path_key target_full_name) (nameKey target_name) (_iter_documents app)).isSome

/-! ### Custom property reader -/

/-- Model of `_serialize_date_value`: `strftime("%Y-%m-%d")` for native
date-like values; otherwise the stripped string cut at the first space and
then at the first `T`. -/
def _serialize_date_value (value : PyVal) : String :=
  match value with
  | PyVal.datetime y m d _ _ _ => strfYmd y m d
  | PyVal.date y m d => strfYmd y m d
  | v =>
    let text := stripL (strOrEmpty v).toList
    if text = [] then ""
    else String.mk ((text.takeWhile (fun c => c ≠ ' ')).takeWhile (fun c => c ≠ 'T'))

/-- Model of `_infer_custom_property_type`: booleans, numbers and native
dates directly; strings are classified `Date` when the part before the first
`T` parses against one of the three date patterns; everything else `Text`. -/
def _infer_custom_property_type (value : PyVal) : String :=
  match value with
  | PyVal.bool _ => "Boolean"
  | PyVal.int _ => "Number"
  | PyVal.float _ => "Number"
  | PyVal.datetime _ _ _ _ _ _ => "Date"
  | PyVal.date _ _ _ => "Date"
  | v =>
    let text := stripL (strOrEmpty v).toList
    if text ≠ [] ∧ (firstDateTriple (text.takeWhile (fun c => c ≠ 'T'))).isSome then "Date"
    else "Text"

/-- Predicate for locating the custom property set by name. -/
def isCustomSetName (ps : PropSet) : Bool :=
  listContains (strip_lower ps.psName).toList "custom".toList

/-- Model of the custom-set lookup shared by reader and writer: scan the
property sets for a name containing `"custom"`, else `Item("Custom")`. -/
def _get_custom_property_set (document : Doc) : Option PropSet :=
  match document.propsAttr with
  | Option.none => Option.none
  | some properties =>
    match (_iter_com_collection (some properties.sets)).find? isCustomSetName with
    | some prop_set => some prop_set
    | Option.none => properties.customItem

/-- The reader's per-property step: skip empty names, infer the type,
replace `None` by `""`, and serialize `Date`-classified values. -/
def readEntry (prop : CProp) : Option CustomEntry :=
  let key := pyStrip prop.pname
  if key = "" then Option.none
  else
    let value := prop.pvalue
    let prop_type := _infer_custom_property_type value
    let normalized : PyVal := if value = PyVal.none then PyVal.str "" else value
    let normalized :=
      if prop_type = "Date" then PyVal.str (_serialize_date_value normalized) else normalized
    some { name := key, type := prop_type, value := normalized }

/-- Model of `_read_document_custom_properties`: locate the custom set, read
its properties, and sort by lowercase name (stable). -/
def _read_document_custom_properties (document : Doc) : List CustomEntry :=
  match document.propsAttr with
  | Option.none => []
  | some _ =>
    match _get_custom_property_set document with
    | Option.none => []
    | some custom_set =>
      List.insertionSort (keyRel entryKey strLeB)
        ((_iter_com_collection (some custom_set.entries)).filterMap readEntry)

/-- The scan loop of `get_draft_custom_properties`: only documents classified
`Draft` are considered; the first identity match is read. -/
def draftScan (wanted_full wanted_name : String) : List Doc → List CustomEntry
  | [] => []
  | document :: rest =>
    let full_name := pathKeyStr (document.fullNameAttr.getD "")
    let name := strip_lower (document.nameAttr.getD "")
    let doc_type := _resolve_document_type document.typeAttr full_name name
    if doc_type ≠ "Draft" then draftScan wanted_full wanted_name rest
    else if (wanted_full ≠ "" ∧ full_name ≠ "" ∧ full_name = wanted_full)
        ∨ (wanted_full = "" ∧ wanted_name ≠ "" ∧ name = wanted_name) then
      _read_document_custom_properties document
    else draftScan wanted_full wanted_name rest

/-- Model of `get_draft_custom_properties`. -/
def get_draft_custom_properties (app : SEApp) (target_full_name : Option String)
    (target_name : Option String) : List CustomEntry :=
  draftScan (_path_key target_full_name) (nameKey target_name) (_iter_documents app)

/-! ### Custom property writer -/

/-- Model of `_coerce_custom_property_value`. -/
def _coerce_custom_property_value (raw_value : PyVal) (prop_type : String) : PyVal :=
  if prop_type = "Boolean" then
    match raw_value with
    | PyVal.bool b => PyVal.bool b
    | v =>
      PyVal.bool
        (["1", "true", "yes", "y", "on"].contains (pyLower (pyStrip (strOrEmpty v))))
  else if prop_type = "Number" then
    match pyFloat raw_value with
    | some q => PyVal.float q
    | Option.none => PyVal.float 0
  else if prop_type = "Date" then
    match raw_value with
    | PyVal.datetime _ _ _ _ _ _ => raw_value
    | PyVal.date _ _ _ => raw_value
    | v =>
      let text := pyStrip (strOrEmpty v)
      if text = "" then PyVal.str ""
      else
        match firstDateParse text.toList with
        | some dt => dt
        | Option.none => PyVal.str text
  else
    match raw_value with
    | PyVal.none => PyVal.str ""
    | v => PyVal.str (pyStr v)

/-- Model of `custom_set.Item(clean_key); prop.Value = typed_value`:
update the first property with the stored name; `Option.none` models the
raising `Item` call that sends the writer to `Add`. -/
def updatePropValue (key : String) (typed : PyVal) : List CProp → Option (List CProp)
  | [] => Option.none
  | prop :: rest =>
    if prop.pname = key then some ({ prop with pvalue := typed } :: rest)
    else (updatePropValue key typed rest).map (fun r => prop :: r)

/-- One iteration of the writer's property loop: skip empty names, coerce,
update-or-add. -/
def applyEntry (custom_set : ComCollection CProp) (entry : CustomEntry) : ComCollection CProp :=
  let clean_key := pyStrip entry.name
  if clean_key = "" then custom_set
  else
    let prop_type := if entry.type = "" then "Text" else entry.type
    let typed_value := _coerce_custom_property_value entry.value prop_type
    match updatePropValue clean_key typed_value custom_set.items with
    | some newItems => { custom_set with items := newItems }
    | Option.none =>
      { custom_set with items := custom_set.items ++ [{ pname := clean_key, pvalue := typed_value }] }

/-- The writer's whole property loop. -/
def writeEntries (custom_set : ComCollection CProp) (props : List CustomEntry) :
    ComCollection CProp :=
  props.foldl applyEntry custom_set

/-- Post-state of a document whose custom property set was mutated in place:
the set located by `_get_custom_property_set` is replaced. -/
def replaceCustomSet (newSet : ComCollection CProp) : List PropSet → List PropSet
  | [] => []
  | ps :: rest =>
    if isCustomSetName ps then { ps with entries := newSet } :: rest
    else ps :: replaceCustomSet newSet rest

/-- Apply the custom-set mutation to the document record. -/
def docUpdateCustomSet (document : Doc) (newSet : ComCollection CProp) : Doc :=
  match document.propsAttr with
  | Option.none => document
  | some pc =>
    if ((_iter_com_collection (some pc.sets)).find? isCustomSetName).isSome then
      let newSets := { pc.sets with items := replaceCustomSet newSet pc.sets.items }
      { document with propsAttr := some ({ pc with sets := newSets }) }
    else
      match pc.customItem with
      | some cs =>
        let newItem := some ({ cs with entries := newSet })
        { document with propsAttr := some ({ pc with customItem := newItem }) }
      | Option.none => document

/-- The scan loop of `set_active_draft_custom_properties`.  A document
qualifies when it is classified `Draft`, matches the requested identity, and
passes the code's active test (full name equals the active full name, or name
equals the active name).  The result is the returned flag together with the
post-state of the scanned documents. -/
def writerScan (wanted_full wanted_name active_full active_name : String)
    (props : List CustomEntry) : List Doc → Bool × List Doc
  | [] => (false, [])
  | document :: rest =>
    let full_name := pathKeyStr (document.fullNameAttr.getD "")
    let name := strip_lower (document.nameAttr.getD "")
    let doc_type := _resolve_document_type document.typeAttr full_name name
    let matches_full := wanted_full ≠ "" ∧ full_name ≠ "" ∧ full_name = wanted_full
    let matches_name := wanted_full = "" ∧ wanted_name ≠ "" ∧ name = wanted_name
    let is_active := (active_full ≠ "" ∧ full_name = active_full)
      ∨ (active_name ≠ "" ∧ name = active_name)
    if doc_type = "Draft" ∧ (matches_full ∨ matches_name) ∧ is_active then
      match _get_custom_property_set document with
      | Option.none => (false, document :: rest)
      | some custom_set =>
        (true, docUpdateCustomSet document (writeEntries custom_set.entries props) :: rest)
    else
      let r := writerScan wanted_full wanted_name active_full active_name props rest
      (r.1, document :: r.2)

/-- Model of `set_active_draft_custom_properties`: returns the flag the
Python function returns, paired with the post-state of the documents the
scan visited (mutation happens through COM references in the source). -/
def set_active_draft_custom_properties (app : SEApp) (target_full_name : Option String)
    (target_name : Option String) (props : List CustomEntry) : Bool × List Doc :=
  let active_full := pathKeyStr
    (match app.activeDocument with
     | Option.none => ""
     | some d => d.fullNameAttr.getD "")
  let active_name := strip_lower
    (match app.activeDocument with
     | Option.none => ""
     | some d => d.nameAttr.getD "")
  writerScan (_path_key target_full_name) (nameKey target_name) active_full active_name props
    (_iter_documents app)

/-! ### Specification-side definitions

The following definitions are written from the specification's wording, for
comparison against the source-translated functions above. -/

/-- A string is a canonical `YYYY-MM-DD` date: it parses under `%Y-%m-%d`
and is the zero-padded rendering of its own value. -/
def isCanonicalYMD (s : String) : Bool :=
  match parseYMDL s.toList with
  | some t => s = strfYmd t.1 t.2.1 t.2.2
  | Option.none => false

/-- String form of a value with absent (`None`) treated as empty, the
stringification convention of the writer's `Text` branch. -/
def strFormAbsent (v : PyVal) : String :=
  match v with
  | PyVal.none => ""
  | v' => pyStr v'

/-- The writer coercion as worded by the (amended) specification: Boolean
keeps a boolean and otherwise tests the trimmed lowercase string form against
the truthy tokens; Number is the float parse of the value with `0.0` on
failure; Date keeps native date/times and otherwise trims the string form
(absent/falsy treated as empty), returning the empty string, the first parse
under the ordered patterns, or the trimmed string; anything else stringifies
with absent becoming empty. -/
def coerceSpecC7 (raw_value : PyVal) (prop_type : String) : PyVal :=
  if prop_type = "Boolean" then
    match raw_value with
    | PyVal.bool b => PyVal.bool b
    | v => PyVal.bool (["1", "true", "yes", "y", "on"].contains (pyLower (pyStrip (pyStr v))))
  else if prop_type = "Number" then
    match pyFloat raw_value with
    | some q => PyVal.float q
    | Option.none => PyVal.float 0
  else if prop_type = "Date" then
    match raw_value with
    | PyVal.datetime _ _ _ _ _ _ => raw_value
    | PyVal.date _ _ _ => raw_value
    | v =>
      let trimmed := pyStrip (strOrEmpty v)
      if trimmed = "" then PyVal.str ""
      else
        match firstDateParse trimmed.toList with
        | some dt => dt
        | Option.none => PyVal.str trimmed
  else
    PyVal.str (strFormAbsent raw_value)

/-- The matching rule of the activator as worded by the specification:
normalized full names both non-empty and equal, or — when no target full
name was supplied — lowercase names both non-empty and equal. -/
def specActivateMatch (wanted_full wanted_name : String) (document : Doc) : Bool :=
  let full_name := pathKeyStr (document.fullNameAttr.getD "")
  let name := strip_lower (document.nameAttr.getD "")
  (wanted_full ≠ "" && full_name ≠ "" && full_name = wanted_full)
    || (wanted_full = "" && wanted_name ≠ "" && name ≠ "" && name = wanted_name)

/-- The writer's gate for one document, as the code implements it: classified
`Draft`, matched by the identity rule, and passing the active test (full name
equal to the active full name, or name equal to the active name). -/
def writerQualifiesB (wanted_full wanted_name active_full active_name : String)
    (document : Doc) : Bool :=
  let full_name := pathKeyStr (document.fullNameAttr.getD "")
  let name := strip_lower (document.nameAttr.getD "")
  (_resolve_document_type document.typeAttr full_name name = "Draft")
    && ((wanted_full ≠ "" && full_name ≠ "" && full_name = wanted_full)
        || (wanted_full = "" && wanted_name ≠ "" && name = wanted_name))
    && ((active_full ≠ "" && full_name = active_full)
        || (active_name ≠ "" && name = active_name))

/-! ### Concrete host states used by counterexamples and witnesses -/

/-- A Draft open from `C:\a\x.dft`, with one custom property `Rev = "old"`. -/
def c1Draft : Doc :=
  { nameAttr := some "x.dft", fullNameAttr := some "C:\\a\\x.dft", typeAttr := Option.none,
    propsAttr := some
      { sets :=
          { items := [{ psName := "Custom",
                        entries := { items := [{ pname := "Rev", pvalue := PyVal.str "old" }],
                                     supportsIter := true, countAttr := Option.none,
                                     itemOk := fun _ => true } }],
            supportsIter := true, countAttr := Option.none, itemOk := fun _ => true },
        customItem := Option.none } }

/-- The host's active document: a different file that happens to share the
display name `x.dft`. -/
def c1Active : Doc :=
  { nameAttr := some "x.dft", fullNameAttr := some "C:\\b\\x.dft", typeAttr := Option.none,
    propsAttr := Option.none }

/-- Host state for the writer scenario: `c1Draft` is open but the active
document is `c1Active`. -/
def c1App : SEApp :=
  { documentsAttr := some
      { items := [c1Draft], supportsIter := true, countAttr := Option.none,
        itemOk := fun _ => true },
    activeDocument := some c1Active }

/-- Enumeration host state: one open document sharing the active document's
name while both full names are present and differ. -/
def c2App : SEApp :=
  { documentsAttr := some
      { items := [{ nameAttr := some "x.dft", fullNameAttr := some "C:\\a\\x.dft",
                    typeAttr := Option.none, propsAttr := Option.none }],
        supportsIter := true, countAttr := Option.none, itemOk := fun _ => true },
    activeDocument := some { nameAttr := some "x.dft", fullNameAttr := some "C:\\b\\x.dft",
                             typeAttr := Option.none, propsAttr := Option.none } }

/-- Reader host state: one active Draft with a custom property whose string
value matches the `MM/DD/YYYY` pattern. -/
def c3Draft : Doc :=
  { nameAttr := some "r.dft", fullNameAttr := some "C:\\a\\r.dft", typeAttr := Option.none,
    propsAttr := some
      { sets :=
          { items := [{ psName := "Custom",
                        entries := { items := [{ pname := "Rev", pvalue := PyVal.str "03/15/2024" }],
                                     supportsIter := true, countAttr := Option.none,
                                     itemOk := fun _ => true } }],
            supportsIter := true, countAttr := Option.none, itemOk := fun _ => true },
        customItem := Option.none } }

/-- Host state around `c3Draft`. -/
def c3App : SEApp :=
  { documentsAttr := some
      { items := [c3Draft], supportsIter := true, countAttr := Option.none,
        itemOk := fun _ => true },
    activeDocument := some c3Draft }

/-- Reader document whose custom property holds a date followed by a space
and a time of day. -/
def c9Doc : Doc :=
  { nameAttr := some "s.dft", fullNameAttr := some "C:\\s.dft", typeAttr := Option.none,
    propsAttr := some
      { sets :=
          { items := [{ psName := "Custom",
                        entries := { items := [{ pname := "When",
                                                 pvalue := PyVal.str "2024-03-01 12:00" }],
                                     supportsIter := true, countAttr := Option.none,
                                     itemOk := fun _ => true } }],
            supportsIter := true, countAttr := Option.none, itemOk := fun _ => true },
        customItem := Option.none } }

/-- First open document of the activation host state. -/
def c4DocA : Doc :=
  { nameAttr := some "a.par", fullNameAttr := some "C:\\a.par",
    typeAttr := Option.none, propsAttr := Option.none }

/-- Second open document of the activation host state. -/
def c4DocB : Doc :=
  { nameAttr := some "b.par", fullNameAttr := some "C:\\b.par",
    typeAttr := Option.none, propsAttr := Option.none }

/-- Activation host state: two documents, where the requested full name
matches the second while the requested name matches the first. -/
def c4App : SEApp :=
  { documentsAttr := some
      { items := [c4DocA, c4DocB],
        supportsIter := true, countAttr := Option.none, itemOk := fun _ => true },
    activeDocument := Option.none }

/-- Enumeration host state with three documents, the active one last, mixed
name cases, for ordering checks. -/
def c6App : SEApp :=
  { documentsAttr := some
      { items := [{ nameAttr := some "b.par", fullNameAttr := some "C:\\b.par",
                    typeAttr := Option.none, propsAttr := Option.none },
                  { nameAttr := some "A.par", fullNameAttr := some "C:\\A.par",
                    typeAttr := Option.none, propsAttr := Option.none },
                  { nameAttr := some "c.dft", fullNameAttr := some "C:\\c.dft",
                    typeAttr := Option.none, propsAttr := Option.none }],
        supportsIter := true, countAttr := Option.none, itemOk := fun _ => true },
    activeDocument := some { nameAttr := some "c.dft", fullNameAttr := some "C:\\c.dft",
                             typeAttr := Option.none, propsAttr := Option.none } }

/-! ### Comparator properties and stable-sort lemmas -/

theorem strLeB_refl : ∀ l, strLeB l l = true
  | [] => rfl
  | a :: as => by simp [strLeB, strLeB_refl as]

theorem strLeB_total : ∀ a b, strLeB a b = true ∨ strLeB b a = true
  | [], _ => Or.inl rfl
  | _ :: _, [] => Or.inr rfl
  | a :: as, b :: bs => by
    simp only [strLeB, Bool.or_eq_true, Bool.and_eq_true, decide_eq_true_eq]
    rcases Nat.lt_trichotomy a.toNat b.toNat with h | h | h
    · exact Or.inl (Or.inl h)
    · rcases strLeB_total as bs with ht | ht
      · exact Or.inl (Or.inr ⟨h, ht⟩)
      · exact Or.inr (Or.inr ⟨h.symm, ht⟩)
    · exact Or.inr (Or.inl h)

theorem strLeB_trans : ∀ a b c, strLeB a b = true → strLeB b c = true → strLeB a c = true
  | [], _, _, _, _ => rfl
  | _ :: _, [], _, h, _ => by simp [strLeB] at h
  | _ :: _, _ :: _, [], _, h => by simp [strLeB] at h
  | a :: as, b :: bs, c :: cs, h1, h2 => by
    simp only [strLeB, Bool.or_eq_true, Bool.and_eq_true, decide_eq_true_eq] at h1 h2 ⊢
    rcases h1 with h1 | ⟨he1, h1⟩
    · rcases h2 with h2 | ⟨he2, _⟩
      · exact Or.inl (Nat.lt_trans h1 h2)
      · exact Or.inl (he2 ▸ h1)
    · rcases h2 with h2 | ⟨he2, h2⟩
      · exact Or.inl (he1 ▸ h2)
      · exact Or.inr ⟨he1.trans he2, strLeB_trans as bs cs h1 h2⟩

theorem pairLeB_refl (x : Nat × List Char) : pairLeB x x = true := by
  simp [pairLeB, strLeB_refl]

theorem pairLeB_total (x y : Nat × List Char) : pairLeB x y = true ∨ pairLeB y x = true := by
  simp only [pairLeB, Bool.or_eq_true, Bool.and_eq_true, decide_eq_true_eq]
  rcases Nat.lt_trichotomy x.1 y.1 with h | h | h
  · exact Or.inl (Or.inl h)
  · rcases strLeB_total x.2 y.2 with ht | ht
    · exact Or.inl (Or.inr ⟨h, ht⟩)
    · exact Or.inr (Or.inr ⟨h.symm, ht⟩)
  · exact Or.inr (Or.inl h)

theorem pairLeB_trans (x y z : Nat × List Char) (h1 : pairLeB x y = true)
    (h2 : pairLeB y z = true) : pairLeB x z = true := by
  simp only [pairLeB, Bool.or_eq_true, Bool.and_eq_true, decide_eq_true_eq] at h1 h2 ⊢
  rcases h1 with h1 | ⟨he1, h1⟩
  · rcases h2 with h2 | ⟨he2, _⟩
    · exact Or.inl (Nat.lt_trans h1 h2)
    · exact Or.inl (he2 ▸ h1)
  · rcases h2 with h2 | ⟨he2, h2⟩
    · exact Or.inl (he1 ▸ h2)
    · exact Or.inr ⟨he1.trans he2, strLeB_trans _ _ _ h1 h2⟩

instance : IsTotal DocumentInfo (keyRel docKey pairLeB) :=
  ⟨fun a b => pairLeB_total (docKey a) (docKey b)⟩

instance : IsTrans DocumentInfo (keyRel docKey pairLeB) :=
  ⟨fun a b c => pairLeB_trans (docKey a) (docKey b) (docKey c)⟩

instance : IsTotal CustomEntry (keyRel entryKey strLeB) :=
  ⟨fun a b => strLeB_total (entryKey a) (entryKey b)⟩

instance : IsTrans CustomEntry (keyRel entryKey strLeB) :=
  ⟨fun a b c => strLeB_trans (entryKey a) (entryKey b) (entryKey c)⟩

theorem filter_key_orderedInsert {α κ : Type} [DecidableEq κ] (key : α → κ)
    (leB : κ → κ → Bool) (hrefl : ∀ k, leB k k = true) (x : α) (l : List α) (k : κ) :
    (List.orderedInsert (keyRel key leB) x l).filter (fun a => key a = k)
      = if key x = k then x :: l.filter (fun a => key a = k)
        else l.filter (fun a => key a = k) := by
  induction l with
  | nil => by_cases h : key x = k <;> simp [List.orderedInsert, List.filter, h]
  | cons b t ih =>
    simp only [List.orderedInsert]
    by_cases hr : keyRel key leB x b
    · rw [if_pos hr]
      by_cases h : key x = k <;> by_cases hb : key b = k <;> simp [List.filter_cons, h, hb]
    · rw [if_neg hr]
      by_cases h : key x = k
      · have hb : ¬ key b = k := by
          intro hbk
          exact hr (show leB (key x) (key b) = true by rw [h, hbk]; exact hrefl k)
        simp [List.filter_cons, hb, ih, h]
      · by_cases hb : key b = k <;> simp [List.filter_cons, hb, ih, h]

theorem filter_key_insertionSort {α κ : Type} [DecidableEq κ] (key : α → κ)
    (leB : κ → κ → Bool) (hrefl : ∀ k, leB k k = true) (l : List α) (k : κ) :
    (List.insertionSort (keyRel key leB) l).filter (fun a => key a = k)
      = l.filter (fun a => key a = k) := by
  induction l with
  | nil => rfl
  | cons x t ih =>
    simp only [List.insertionSort]
    rw [filter_key_orderedInsert key leB hrefl, ih]
    by_cases h : key x = k <;> simp [List.filter_cons, h]

/-! ### List helper lemmas -/

theorem mem_takeWhile {α : Type} {p : α → Bool} :
    ∀ {l : List α} {a : α}, a ∈ l.takeWhile p → p a = true ∧ a ∈ l := by
  intro l
  induction l with
  | nil => intro a h; simp [List.takeWhile] at h
  | cons x t ih =>
    intro a h
    rw [List.takeWhile_cons] at h
    by_cases hx : p x = true
    · rw [if_pos hx] at h
      rcases List.mem_cons.mp h with h | h
      · exact ⟨h ▸ hx, h ▸ List.mem_cons_self x t⟩
      · exact ⟨(ih h).1, List.mem_cons_of_mem x (ih h).2⟩
    · rw [if_neg hx] at h
      simp at h

theorem takeWhile_append_all {α : Type} {p : α → Bool} :
    ∀ (xs ys : List α), (∀ c ∈ xs, p c = true) →
      (xs ++ ys).takeWhile p = xs ++ ys.takeWhile p
  | [], ys, _ => rfl
  | x :: xs, ys, h => by
    have hx : p x = true := h x (List.mem_cons_self x xs)
    simp only [List.cons_append, List.takeWhile_cons, hx, if_true]
    rw [takeWhile_append_all xs ys (fun c hc => h c (List.mem_cons_of_mem x hc))]

theorem takeWhile_append_stop {α : Type} {p : α → Bool} (xs : List α) (y : α) (ys : List α)
    (h : ∀ c ∈ xs, p c = true) (hy : p y = false) :
    (xs ++ y :: ys).takeWhile p = xs := by
  rw [takeWhile_append_all xs (y :: ys) h, List.takeWhile_cons, hy]
  simp

theorem dropWhile_append_cons {α : Type} {p : α → Bool} :
    ∀ (as : List α) (b : α) (bs : List α), p b = false →
      (as ++ b :: bs).dropWhile p = as.dropWhile p ++ b :: bs
  | [], b, bs, hb => by simp [List.dropWhile_cons, hb]
  | a :: as, b, bs, hb => by
    by_cases ha : p a = true
    · simp only [List.cons_append, List.dropWhile_cons, ha, if_true]
      exact dropWhile_append_cons as b bs hb
    · simp only [List.cons_append, List.dropWhile_cons, ha, if_false]
      simp [Bool.not_eq_true] at ha
      simp [ha]

theorem filterMap_congr_mem {α β : Type} {f g : α → Option β} :
    ∀ {l : List α}, (∀ a ∈ l, f a = g a) → l.filterMap f = l.filterMap g := by
  intro l
  induction l with
  | nil => intro _; rfl
  | cons x t ih =>
    intro h
    rw [List.filterMap_cons, List.filterMap_cons, h x (List.mem_cons_self x t),
      ih (fun a ha => h a (List.mem_cons_of_mem x ha))]

/-! ### Digit and date-rendering lemmas -/

theorem digitChar_isDigit (n : Nat) : (digitChar n).isDigit = true := by
  rcases Nat.lt_or_ge n 9 with h | h
  · interval_cases n <;> decide
  · obtain ⟨m, rfl⟩ : ∃ m, n = m + 9 := ⟨n - 9, by omega⟩
    show ('9').isDigit = true
    decide

theorem isDigit_facts {c : Char} (h : c.isDigit = true) :
    c ≠ 'T' ∧ c ≠ ' ' ∧ c ≠ '-' ∧ c ≠ '/' ∧ isPyWs c = false := by
  refine ⟨?_, ?_, ?_, ?_, ?_⟩
  · intro he; rw [he] at h; exact absurd h (by decide)
  · intro he; rw [he] at h; exact absurd h (by decide)
  · intro he; rw [he] at h; exact absurd h (by decide)
  · intro he; rw [he] at h; exact absurd h (by decide)
  · by_cases hw : isPyWs c = true
    · simp only [isPyWs, decide_eq_true_eq] at hw
      rcases hw with rfl | rfl | rfl | rfl | rfl | rfl <;> exact absurd h (by decide)
    · rw [Bool.not_eq_true] at hw
      exact hw

theorem mem_render2L {c : Char} {n : Nat} (h : c ∈ render2L n) : c.isDigit = true := by
  simp only [render2L, List.mem_cons, List.not_mem_nil, or_false] at h
  rcases h with h | h <;> exact h ▸ digitChar_isDigit _

theorem mem_render4L {c : Char} {n : Nat} (h : c ∈ render4L n) : c.isDigit = true := by
  simp only [render4L, List.mem_cons, List.not_mem_nil, or_false] at h
  rcases h with h | h | h | h <;> exact h ▸ digitChar_isDigit _

theorem mem_ymdL {c : Char} {y m d : Nat} (h : c ∈ ymdL y m d) :
    c.isDigit = true ∨ c = '-' := by
  simp only [ymdL, List.mem_append, List.mem_cons] at h
  rcases h with h | h | h
  · exact Or.inl (mem_render4L h)
  · exact Or.inr h
  rcases h with h | h | h
  · exact Or.inl (mem_render2L h)
  · exact Or.inr h
  · exact Or.inl (mem_render2L h)

theorem digitVal_digitChar (n : Nat) (h : n < 10) : (digitChar n).toNat - 48 = n := by
  interval_cases n <;> rfl

theorem natOfDigits_render2L (n : Nat) (h : n < 100) : natOfDigits (render2L n) = n := by
  have h1 : n / 10 < 10 := by omega
  have h2 : n % 10 < 10 := by omega
  simp only [natOfDigits, render2L, List.foldl]
  rw [digitVal_digitChar _ h1, digitVal_digitChar _ h2]
  omega

theorem natOfDigits_render4L (n : Nat) (h : n < 10000) : natOfDigits (render4L n) = n := by
  have h1 : n / 1000 < 10 := by omega
  have h2 : n / 100 % 10 < 10 := by omega
  have h3 : n / 10 % 10 < 10 := by omega
  have h4 : n % 10 < 10 := by omega
  simp only [natOfDigits, render4L, List.foldl]
  rw [digitVal_digitChar _ h1, digitVal_digitChar _ h2, digitVal_digitChar _ h3,
    digitVal_digitChar _ h4]
  omega

/-! ### `splitOnChar` lemmas -/

theorem splitOnChar_not_mem (c : Char) : ∀ (l : List Char), c ∉ l → splitOnChar c l = [l]
  | [], _ => rfl
  | x :: xs, h => by
    have hx : ¬ x = c := fun hc => h (hc ▸ List.mem_cons_self x xs)
    have hxs : c ∉ xs := fun hc => h (List.mem_cons_of_mem x hc)
    simp only [splitOnChar, hx, if_false, splitOnChar_not_mem c xs hxs]

theorem splitOnChar_append (c : Char) :
    ∀ (xs ys : List Char), c ∉ xs → splitOnChar c (xs ++ c :: ys) = xs :: splitOnChar c ys
  | [], ys, _ => by simp [splitOnChar]
  | x :: xs, ys, h => by
    have hx : ¬ x = c := fun hc => h (hc ▸ List.mem_cons_self x xs)
    have hxs : c ∉ xs := fun hc => h (List.mem_cons_of_mem x hc)
    simp only [List.cons_append, splitOnChar, hx, if_false, List.append_eq,
      splitOnChar_append c xs ys hxs]

/-! ### Date parse round-trip -/

theorem validYMD_bounds {y m d : Nat} (h : validYMD y m d = true) :
    1 ≤ y ∧ y ≤ 9999 ∧ 1 ≤ m ∧ m ≤ 12 ∧ 1 ≤ d ∧ d ≤ daysInMonth y m := by
  simpa [validYMD, decide_eq_true_eq] using h

theorem isPyWs_digitChar (n : Nat) : isPyWs (digitChar n) = false :=
  (isDigit_facts (digitChar_isDigit n)).2.2.2.2

theorem not_dash_render4L (n : Nat) : '-' ∉ render4L n := by
  intro h
  exact absurd rfl (isDigit_facts (mem_render4L h)).2.2.1

theorem not_dash_render2L (n : Nat) : '-' ∉ render2L n := by
  intro h
  exact absurd rfl (isDigit_facts (mem_render2L h)).2.2.1

theorem parseYMDL_ymdL (y m d : Nat) (h : validYMD y m d = true) :
    parseYMDL (ymdL y m d) = some (y, m, d) := by
  obtain ⟨h1, h2, h3, h4, h5, h6⟩ := validYMD_bounds h
  have s1 : split3 '-' (ymdL y m d) = some (render4L y, render2L m, render2L d) := by
    unfold split3 ymdL
    rw [splitOnChar_append '-' _ _ (not_dash_render4L y),
      splitOnChar_append '-' _ _ (not_dash_render2L m),
      splitOnChar_not_mem '-' _ (not_dash_render2L d)]
  have f1 : fieldNat4 (render4L y) = some y := by
    unfold fieldNat4
    rw [if_pos ⟨by simp [render4L], by simp [render4L, List.all_cons, digitChar_isDigit]⟩,
      natOfDigits_render4L y (by omega)]
  have f2 : fieldNat12 (render2L m) = some m := by
    unfold fieldNat12
    rw [if_pos ⟨by simp [render2L], by simp [render2L], by simp [render2L, List.all_cons, digitChar_isDigit]⟩,
      natOfDigits_render2L m (by omega)]
  have f3 : fieldNat12 (render2L d) = some d := by
    have hd : d < 100 := by
      have : daysInMonth y m ≤ 31 := by
        unfold daysInMonth
        split <;> try split
        all_goals omega
      omega
    unfold fieldNat12
    rw [if_pos ⟨by simp [render2L], by simp [render2L], by simp [render2L, List.all_cons, digitChar_isDigit]⟩,
      natOfDigits_render2L d hd]
  simp [parseYMDL, s1, f1, f2, f3, mkValidated, h]

theorem isCanonicalYMD_strfYmd (y m d : Nat) (h : validYMD y m d = true) :
    isCanonicalYMD (strfYmd y m d) = true := by
  unfold isCanonicalYMD
  have : (strfYmd y m d).toList = ymdL y m d := rfl
  rw [this, parseYMDL_ymdL y m d h]
  simp

/-! ### String and stripping lemmas -/

theorem strOrEmpty_str (s : String) : strOrEmpty (PyVal.str s) = s := by
  by_cases h : s = "" <;> simp [strOrEmpty, pyTruthy, pyStr, h]

theorem ymdL_ne_nil (y m d : Nat) : ymdL y m d ≠ [] := by
  simp [ymdL, render4L]

theorem ymdL_facts (y m d : Nat) :
    ∀ c ∈ ymdL y m d, c ≠ 'T' ∧ c ≠ ' ' ∧ isPyWs c = false := by
  intro c hc
  rcases mem_ymdL hc with h | h
  · have hf := isDigit_facts h
    exact ⟨hf.1, hf.2.1, hf.2.2.2.2⟩
  · subst h
    exact ⟨by decide, by decide, by decide⟩

theorem stripL_ymd_T (y m d : Nat) (sfx : List Char) :
    stripL (ymdL y m d ++ 'T' :: sfx)
      = ymdL y m d ++ 'T' :: (sfx.reverse.dropWhile isPyWs).reverse := by
  unfold stripL
  have hhead : (ymdL y m d ++ 'T' :: sfx).dropWhile isPyWs = ymdL y m d ++ 'T' :: sfx := by
    cases hy : ymdL y m d with
    | nil => exact absurd hy (ymdL_ne_nil y m d)
    | cons c rest =>
      have hc : isPyWs c = false :=
        (ymdL_facts y m d c (hy ▸ List.mem_cons_self c rest)).2.2
      simp [List.cons_append, List.dropWhile_cons, hc]
  rw [hhead]
  have hrev : (ymdL y m d ++ 'T' :: sfx).reverse
      = sfx.reverse ++ 'T' :: (ymdL y m d).reverse := by
    simp [List.reverse_append, List.reverse_cons, List.append_assoc]
  rw [hrev, dropWhile_append_cons sfx.reverse 'T' (ymdL y m d).reverse (by decide)]
  simp [List.reverse_append]

theorem takeWhile_T_ymd (y m d : Nat) (t : List Char) :
    (ymdL y m d ++ 'T' :: t).takeWhile (fun c => c ≠ 'T') = ymdL y m d := by
  refine takeWhile_append_stop _ _ _ ?_ (by simp)
  intro c hc
  simpa using (ymdL_facts y m d c hc).1

theorem takeWhile_space_ymd_T (y m d : Nat) (t : List Char) :
    (ymdL y m d ++ 'T' :: t).takeWhile (fun c => c ≠ ' ')
      = ymdL y m d ++ 'T' :: t.takeWhile (fun c => c ≠ ' ') := by
  have h := takeWhile_append_all (p := fun c : Char => decide (c ≠ ' '))
    (ymdL y m d ++ ['T']) t ?_
  · simpa [List.append_assoc] using h
  · intro c hc
    rcases List.mem_append.mp hc with h1 | h1
    · simpa using (ymdL_facts y m d c h1).2.1
    · simp only [List.mem_cons, List.not_mem_nil, or_false] at h1
      subst h1
      decide

theorem toList_of_ymd_T_append (y m d : Nat) (suffix : String) :
    (strfYmd y m d ++ "T" ++ suffix).toList = ymdL y m d ++ 'T' :: suffix.toList := by
  show ((strfYmd y m d).toList ++ "T".toList) ++ suffix.toList = _
  have : (strfYmd y m d).toList = ymdL y m d := rfl
  rw [this]
  simp [List.append_assoc]

theorem firstDateTriple_ymdL (y m d : Nat) (h : validYMD y m d = true) :
    firstDateTriple (ymdL y m d) = some (y, m, d) := by
  unfold firstDateTriple
  rw [parseYMDL_ymdL y m d h]

/-! ### Serializer and inference lemmas -/

theorem infer_ymd_T (y m d : Nat) (h : validYMD y m d = true) (suffix : String) :
    _infer_custom_property_type (PyVal.str (strfYmd y m d ++ "T" ++ suffix)) = "Date" := by
  simp only [_infer_custom_property_type]
  rw [strOrEmpty_str, toList_of_ymd_T_append, stripL_ymd_T, takeWhile_T_ymd,
    firstDateTriple_ymdL y m d h]
  rw [if_pos ⟨by simp, rfl⟩]

theorem serialize_ymd_T (y m d : Nat) (suffix : String) :
    _serialize_date_value (PyVal.str (strfYmd y m d ++ "T" ++ suffix)) = strfYmd y m d := by
  simp only [_serialize_date_value]
  rw [strOrEmpty_str, toList_of_ymd_T_append, stripL_ymd_T]
  rw [if_neg (by simp), takeWhile_space_ymd_T, takeWhile_T_ymd]
  rfl

theorem mem_serialize_chain {l : List Char} {c : Char}
    (hc : c ∈ (l.takeWhile (fun c => c ≠ ' ')).takeWhile (fun c => c ≠ 'T')) :
    c ≠ ' ' ∧ c ≠ 'T' := by
  have h1 := mem_takeWhile hc
  have h2 := mem_takeWhile h1.2
  exact ⟨by simpa using h2.1, by simpa using h1.1⟩

theorem chain_no_spaceT (l : List Char) :
    ∀ c ∈ (if l = [] then ""
      else String.mk ((l.takeWhile (fun c => c ≠ ' ')).takeWhile (fun c => c ≠ 'T'))).toList,
      c ≠ ' ' ∧ c ≠ 'T' := by
  intro c hc
  by_cases h : l = []
  · rw [if_pos h] at hc
    simp at hc
  · rw [if_neg h] at hc
    exact mem_serialize_chain hc

theorem serialize_no_spaceT :
    ∀ (v : PyVal), ∀ c ∈ (_serialize_date_value v).toList, c ≠ ' ' ∧ c ≠ 'T' := by
  intro v c hc
  cases v with
  | datetime y m d hh mm ss =>
    have hm : c ∈ ymdL y m d := hc
    have hf := ymdL_facts y m d c hm
    exact ⟨hf.2.1, hf.1⟩
  | date y m d =>
    have hm : c ∈ ymdL y m d := hc
    have hf := ymdL_facts y m d c hm
    exact ⟨hf.2.1, hf.1⟩
  | none => exact chain_no_spaceT _ c hc
  | bool b => exact chain_no_spaceT _ c hc
  | int n => exact chain_no_spaceT _ c hc
  | float q => exact chain_no_spaceT _ c hc
  | str s => exact chain_no_spaceT _ c hc

/-! ### Claim C9 -/

/-- C9: in the reader's type inference for string values, the trimmed string
is truncated at the first `T` (but not at a space) before the date patterns
are tried: every valid `YYYY-MM-DDT<suffix>` string is classified `Date` and
serialized to its date part, while `"2024-03-01 12:00"` is classified `Text`
and returned verbatim by the reader. -/
theorem c9_infer_truncates_at_T (y m d : Nat) (suffix : String)
    (h : validYMD y m d = true) :
    _infer_custom_property_type (PyVal.str (strfYmd y m d ++ "T" ++ suffix)) = "Date"
    ∧ _serialize_date_value (PyVal.str (strfYmd y m d ++ "T" ++ suffix)) = strfYmd y m d
    ∧ _infer_custom_property_type (PyVal.str "2024-03-01 12:00") = "Text"
    ∧ _read_document_custom_properties c9Doc
        = [{ name := "When", type := "Text", value := PyVal.str "2024-03-01 12:00" }] :=
  ⟨infer_ymd_T y m d h suffix, serialize_ymd_T y m d suffix, by decide, by decide⟩

/-- Witness for C9 at `2024-03-01T08:30:00Z`. -/
theorem c9_witness :
    _infer_custom_property_type (PyVal.str (strfYmd 2024 3 1 ++ "T" ++ "08:30:00Z")) = "Date"
    ∧ _serialize_date_value (PyVal.str (strfYmd 2024 3 1 ++ "T" ++ "08:30:00Z"))
        = strfYmd 2024 3 1
    ∧ _infer_custom_property_type (PyVal.str "2024-03-01 12:00") = "Text"
    ∧ _read_document_custom_properties c9Doc
        = [{ name := "When", type := "Text", value := PyVal.str "2024-03-01 12:00" }] :=
  c9_infer_truncates_at_T 2024 3 1 "08:30:00Z" (by decide)

/-! ### Claim C3 -/

/-- C3 counterexample: a property whose string value matches `MM/DD/YYYY` is
classified `Date` by the reader but its returned value keeps the source
format `03/15/2024`, which is not a canonical `YYYY-MM-DD` string — the
serializer only truncates strings, it does not reformat them. -/
theorem c3_counterexample :
    get_draft_custom_properties c3App (some "C:\\a\\r.dft") (some "r.dft")
      = [{ name := "Rev", type := "Date", value := PyVal.str "03/15/2024" }]
    ∧ isCanonicalYMD "03/15/2024" = false := by
  exact ⟨by decide, by decide⟩

/-- C3 amended: every `Date`-classified property value is returned as a
string containing no space and no `T` (any time-of-day or timezone suffix is
truncated); native date/datetime values are rendered as canonical
`YYYY-MM-DD`; date-pattern strings keep their source format, truncated but
not reformatted. -/
theorem c3_amended :
    (∀ (document : Doc), ∀ entry ∈ _read_document_custom_properties document,
        entry.type = "Date" →
          ∃ s, entry.value = PyVal.str s ∧ ∀ c ∈ s.toList, c ≠ ' ' ∧ c ≠ 'T')
    ∧ (∀ y m d hh mm ss, validYMD y m d = true →
        _serialize_date_value (PyVal.date y m d) = strfYmd y m d
        ∧ _serialize_date_value (PyVal.datetime y m d hh mm ss) = strfYmd y m d
        ∧ isCanonicalYMD (strfYmd y m d) = true)
    ∧ _serialize_date_value (PyVal.str "03/15/2024") = "03/15/2024" := by
  refine ⟨?_, ?_, by decide⟩
  · intro document entry hmem htype
    unfold _read_document_custom_properties at hmem
    cases hp : document.propsAttr with
    | none => rw [hp] at hmem; simp at hmem
    | some properties =>
      rw [hp] at hmem
      cases hcs : _get_custom_property_set document with
      | none => rw [hcs] at hmem; simp at hmem
      | some custom_set =>
        rw [hcs] at hmem
        have hmem2 := (List.perm_insertionSort (keyRel entryKey strLeB) _).mem_iff.mp hmem
        obtain ⟨p, _, hre⟩ := List.mem_filterMap.mp hmem2
        unfold readEntry at hre
        by_cases hk : pyStrip p.pname = ""
        · rw [if_pos hk] at hre; exact absurd hre (by simp)
        · rw [if_neg hk] at hre
          have he := Option.some.inj hre
          have htype' : _infer_custom_property_type p.pvalue = "Date" := by
            rw [← he] at htype
            by_cases hd : _infer_custom_property_type p.pvalue = "Date"
            · exact hd
            · rw [if_neg hd] at htype
              exact absurd htype hd
          refine ⟨_serialize_date_value
            (if p.pvalue = PyVal.none then PyVal.str "" else p.pvalue), ?_, ?_⟩
          · rw [← he]
            simp only [htype', if_pos]
          · exact serialize_no_spaceT _
  · intro y m d hh mm ss h
    exact ⟨rfl, rfl, isCanonicalYMD_strfYmd y m d h⟩

/-- Witness for the amended C3 at the date `2024-03-01`. -/
theorem c3_amended_witness :
    _serialize_date_value (PyVal.date 2024 3 1) = strfYmd 2024 3 1
    ∧ isCanonicalYMD (strfYmd 2024 3 1) = true :=
  ⟨(c3_amended.2.1 2024 3 1 0 0 0 (by decide)).1,
   (c3_amended.2.1 2024 3 1 0 0 0 (by decide)).2.2⟩

/-! ### Claim C5 -/

/-- C5 counterexample: the full name `".dft"` ends in `.dft`, but under the
path `splitext` rule a final component consisting only of leading dots has no
extension, so the classifier falls through to the raw type code and returns
`Part` for code 1 instead of `Draft`. -/
theorem c5_counterexample :
    _resolve_document_type (some 1) ".dft" "" = "Part"
    ∧ splitextExt ".dft" = ""
    ∧ ("Part" : String) ≠ "Draft" := by
  exact ⟨by decide, by decide, by decide⟩

/-- C5 amended: whenever the `splitext` extension of the resolved full name
(or of the display name when the full name is empty) is `.dft` the classifier
returns `Draft` regardless of the raw type code; likewise `.par`/`.psm` give
`Part` and `.asm` gives `Assembly`; when the extension is absent or
unrecognized — which includes dotfile-style names such as a bare `".dft"` —
the raw-code table `1 ↦ Part, 2 ↦ Assembly, 3 ↦ Draft` decides, else
`Unknown`. -/
theorem c5_amended (typeAttr : Option Int) (full_name display_name : String) :
    (pyLower (splitextExt (if full_name ≠ "" then full_name else display_name)) = ".dft" →
        _resolve_document_type typeAttr full_name display_name = "Draft")
    ∧ (pyLower (splitextExt (if full_name ≠ "" then full_name else display_name)) = ".par"
        ∨ pyLower (splitextExt (if full_name ≠ "" then full_name else display_name)) = ".psm" →
        _resolve_document_type typeAttr full_name display_name = "Part")
    ∧ (pyLower (splitextExt (if full_name ≠ "" then full_name else display_name)) = ".asm" →
        _resolve_document_type typeAttr full_name display_name = "Assembly")
    ∧ (pyLower (splitextExt (if full_name ≠ "" then full_name else display_name)) ≠ ".par" →
        pyLower (splitextExt (if full_name ≠ "" then full_name else display_name)) ≠ ".psm" →
        pyLower (splitextExt (if full_name ≠ "" then full_name else display_name)) ≠ ".asm" →
        pyLower (splitextExt (if full_name ≠ "" then full_name else display_name)) ≠ ".dft" →
        _resolve_document_type typeAttr full_name display_name
          = (match typeAttr with
             | some 1 => "Part"
             | some 2 => "Assembly"
             | some 3 => "Draft"
             | _ => "Unknown")) := by
  refine ⟨?_, ?_, ?_, ?_⟩
  · intro h
    simp only [_resolve_document_type]
    rw [h]
    simp
  · intro h
    rcases h with h | h <;>
      · simp only [_resolve_document_type]
        rw [h]
        simp
  · intro h
    simp only [_resolve_document_type]
    rw [h]
    simp
  · intro h1 h2 h3 h4
    simp only [_resolve_document_type]
    rw [if_neg (fun hc => hc.elim h1 h2), if_neg h3, if_neg h4]

/-- Witness for the amended C5: extension precedence on `"x.dft"` with raw
code 2, and the raw-code fallback on an extensionless name. -/
theorem c5_amended_witness :
    _resolve_document_type (some 2) "x.dft" "" = "Draft"
    ∧ _resolve_document_type (some 2) "noext" "" = "Assembly" :=
  ⟨(c5_amended (some 2) "x.dft" "").1 (by decide),
   (c5_amended (some 2) "noext" "").2.2.2 (by decide) (by decide) (by decide) (by decide)⟩

/-! ### Claim C7 -/

/-- C7 counterexample: with type `Date`, an unparseable string is returned
trimmed, not raw (`" hello "` becomes `"hello"`), and a falsy non-string
value is stringified through the `or ""` idiom (`0` becomes `""`, not
`"0"`). -/
theorem c7_counterexample :
    _coerce_custom_property_value (PyVal.str " hello ") "Date" = PyVal.str "hello"
    ∧ PyVal.str "hello" ≠ PyVal.str " hello "
    ∧ _coerce_custom_property_value (PyVal.int 0) "Date" = PyVal.str ""
    ∧ PyVal.str "" ≠ PyVal.str "0" := by
  exact ⟨by decide, by decide, by decide, by decide⟩

/-- C7 amended: the writer's coercion equals the specification function
`coerceSpecC7`: Boolean keeps booleans and otherwise tests the trimmed
lowercase string form against the truthy tokens; Number is the float parse
defaulting to `0.0`; Date keeps native date/times, treats falsy values as
empty, and otherwise parses the trimmed string against the ordered patterns,
falling back to the trimmed string; everything else stringifies with absent
becoming empty. -/
theorem c7_amended (raw_value : PyVal) (prop_type : String) :
    _coerce_custom_property_value raw_value prop_type = coerceSpecC7 raw_value prop_type := by
  unfold _coerce_custom_property_value coerceSpecC7
  by_cases hb : prop_type = "Boolean"
  · rw [if_pos hb, if_pos hb]
    cases raw_value with
    | bool b => rfl
    | none => decide
    | int n =>
      by_cases hn : n = 0
      · subst hn; decide
      · have hs : strOrEmpty (PyVal.int n) = pyStr (PyVal.int n) := by
          simp [strOrEmpty, pyTruthy, hn]
        exact congrArg
          (fun s => PyVal.bool (["1", "true", "yes", "y", "on"].contains (pyLower (pyStrip s)))) hs
    | float q =>
      by_cases hq : q = 0
      · subst hq; decide
      · have hs : strOrEmpty (PyVal.float q) = pyStr (PyVal.float q) := by
          simp [strOrEmpty, pyTruthy, hq]
        exact congrArg
          (fun s => PyVal.bool (["1", "true", "yes", "y", "on"].contains (pyLower (pyStrip s)))) hs
    | str s =>
      exact congrArg
        (fun t => PyVal.bool (["1", "true", "yes", "y", "on"].contains (pyLower (pyStrip t))))
        (strOrEmpty_str s)
    | date y m d => rfl
    | datetime y m d hh mm ss => rfl
  · rw [if_neg hb, if_neg hb]
    by_cases hn : prop_type = "Number"
    · rw [if_pos hn, if_pos hn]
    · rw [if_neg hn, if_neg hn]
      by_cases hd : prop_type = "Date"
      · rw [if_pos hd, if_pos hd]
      · rw [if_neg hd, if_neg hd]
        cases raw_value <;> rfl

/-! ### Claim C10 -/

/-- C10: the writer's coercion is total over its declared-type argument:
Boolean always yields a boolean and Number always yields a float (the
modelled exceptions are caught, so neither branch raises), and every type
tag outside Boolean/Number/Date — including `"Text"`, the empty string, and
arbitrary strings — stringifies the value with `None` becoming the empty
string. -/
theorem c10_coercion_total (v : PyVal) (t : String) :
    (∃ b, _coerce_custom_property_value v "Boolean" = PyVal.bool b)
    ∧ (∃ q, _coerce_custom_property_value v "Number" = PyVal.float q)
    ∧ (t ≠ "Boolean" → t ≠ "Number" → t ≠ "Date" →
        _coerce_custom_property_value v t = PyVal.str (strFormAbsent v)) := by
  refine ⟨?_, ?_, ?_⟩
  · unfold _coerce_custom_property_value
    rw [if_pos rfl]
    cases v <;> exact ⟨_, rfl⟩
  · unfold _coerce_custom_property_value
    rw [if_neg (by decide), if_pos rfl]
    cases pyFloat v <;> exact ⟨_, rfl⟩
  · intro h1 h2 h3
    unfold _coerce_custom_property_value
    rw [if_neg h1, if_neg h2, if_neg h3]
    cases v <;> rfl

/-- Witness for C10 at a string value and the `Text` tag. -/
theorem c10_witness :
    _coerce_custom_property_value (PyVal.str "abc") "Text"
      = PyVal.str (strFormAbsent (PyVal.str "abc")) :=
  (c10_coercion_total (PyVal.str "abc") "Text").2.2 (by decide) (by decide) (by decide)

/-! ### Claim C4 -/

theorem specActivateMatch_true {wf wn : String} {d : Doc}
    (h : ((wf ≠ "" ∧ pathKeyStr (d.fullNameAttr.getD "") ≠ ""
            ∧ pathKeyStr (d.fullNameAttr.getD "") = wf)
        ∨ (wf = "" ∧ wn ≠ "" ∧ strip_lower (d.nameAttr.getD "") = wn))) :
    specActivateMatch wf wn d = true := by
  unfold specActivateMatch
  simp only [Bool.or_eq_true, Bool.and_eq_true, decide_eq_true_eq, and_assoc]
  rcases h with ⟨h1, h2, h3⟩ | ⟨h1, h2, h3⟩
  · exact Or.inl ⟨h1, h2, h3⟩
  · refine Or.inr ⟨h1, h2, ?_, h3⟩
    rw [h3]
    exact h2

theorem specActivateMatch_false {wf wn : String} {d : Doc}
    (h : ¬ ((wf ≠ "" ∧ pathKeyStr (d.fullNameAttr.getD "") ≠ ""
            ∧ pathKeyStr (d.fullNameAttr.getD "") = wf)
        ∨ (wf = "" ∧ wn ≠ "" ∧ strip_lower (d.nameAttr.getD "") = wn))) :
    specActivateMatch wf wn d = false := by
  rw [Bool.eq_false_iff]
  intro hc
  apply h
  unfold specActivateMatch at hc
  simp only [Bool.or_eq_true, Bool.and_eq_true, decide_eq_true_eq, and_assoc] at hc
  rcases hc with ⟨h1, h2, h3⟩ | ⟨h1, h2, _, h4⟩
  · exact Or.inl ⟨h1, h2, h3⟩
  · exact Or.inr ⟨h1, h2, h4⟩

theorem activateScan_eq_find (wf wn : String) :
    ∀ l, activateScan wf wn l = l.find? (specActivateMatch wf wn)
  | [] => rfl
  | d :: rest => by
    show (if (wf ≠ "" ∧ pathKeyStr (d.fullNameAttr.getD "") ≠ ""
            ∧ pathKeyStr (d.fullNameAttr.getD "") = wf)
        ∨ (wf = "" ∧ wn ≠ "" ∧ strip_lower (d.nameAttr.getD "") = wn) then some d
      else activateScan wf wn rest) = List.find? (specActivateMatch wf wn) (d :: rest)
    rw [List.find?]
    by_cases hc : (wf ≠ "" ∧ pathKeyStr (d.fullNameAttr.getD "") ≠ ""
            ∧ pathKeyStr (d.fullNameAttr.getD "") = wf)
        ∨ (wf = "" ∧ wn ≠ "" ∧ strip_lower (d.nameAttr.getD "") = wn)
    · rw [if_pos hc, specActivateMatch_true hc]
    · rw [if_neg hc, specActivateMatch_false hc]
      exact activateScan_eq_find wf wn rest

/-- C4: the activator matches a document exactly by the specification rule —
normalized full names both non-empty and equal, or, only when the normalized
target full name is empty, normalized names both non-empty and equal; the
first match in iteration order is the one activated (`find?`), `true` is
returned iff some document matches (hence `false` exactly when the scan is
exhausted), and when a target full name is supplied the activated document
always matches it by full name (no fallback to name matching). -/
theorem c4_activation_matching (app : SEApp)
    (target_full_name target_name : Option String) :
    (activateScan (_path_key target_full_name) (nameKey target_name) (_iter_documents app)
      = (_iter_documents app).find?
          (specActivateMatch (_path_key target_full_name) (nameKey target_name)))
    ∧ (activate_document_by_full_name app target_full_name target_name = true
        ↔ ∃ d ∈ _iter_documents app,
            specActivateMatch (_path_key target_full_name) (nameKey target_name) d = true)
    ∧ (_path_key target_full_name ≠ "" →
        ∀ d, activateScan (_path_key target_full_name) (nameKey target_name)
            (_iter_documents app) = some d →
          pathKeyStr (d.fullNameAttr.getD "") = _path_key target_full_name) := by
  refine ⟨activateScan_eq_find _ _ _, ?_, ?_⟩
  · unfold activate_document_by_full_name
    rw [activateScan_eq_find]
    simp [List.find?_isSome]
  · intro hwf d hd
    rw [activateScan_eq_find] at hd
    have hp := List.find?_some hd
    unfold specActivateMatch at hp
    simp only [Bool.or_eq_true, Bool.and_eq_true, decide_eq_true_eq, and_assoc] at hp
    rcases hp with ⟨_, _, h3⟩ | ⟨h1, _, _, _⟩
    · exact h3
    · exact absurd h1 hwf

/-- Witness for C4: in `c4App` the full name `C:\b.par` matches the second
document even though the supplied name `a.par` matches the first, and the
activated document is the full-name match. -/
theorem c4_witness :
    activate_document_by_full_name c4App (some "C:\\b.par") (some "a.par") = true
    ∧ pathKeyStr (c4DocB.fullNameAttr.getD "") = _path_key (some "C:\\b.par") :=
  ⟨((c4_activation_matching c4App (some "C:\\b.par") (some "a.par")).2.1).mpr (by decide),
   (c4_activation_matching c4App (some "C:\\b.par") (some "a.par")).2.2 (by decide) c4DocB rfl⟩

/-! ### Claim C2 -/

/-- C2 counterexample: both full names are present and differ, yet the open
document is marked active because its name equals the active document's name
— the enumerator's name comparison is not restricted to the case where no
full-name comparison is possible. -/
theorem c2_counterexample :
    (get_open_documents c2App).1
      = [{ name := "x.dft", full_name := "C:\\a\\x.dft", document_type := "Draft",
           is_active := true }]
    ∧ c2App.activeDocument.bind (fun d => d.fullNameAttr) = some "C:\\b\\x.dft"
    ∧ ("C:\\b\\x.dft" : String) ≠ "C:\\a\\x.dft" := by
  exact ⟨by decide, by decide, by decide⟩

/-- C2 amended: for every document produced by the enumeration loop (the
single-document fallback aside), `is_active` is the disjunction of the two
truthiness-guarded equalities — full name equals a non-empty active full
name, or name equals a non-empty active name — with the name comparison
applied even when both full names are present and differ. -/
theorem c2_amended (app : SEApp) (h : _iter_documents app ≠ []) :
    ∀ info ∈ (get_open_documents app).1,
      info.is_active
        = (optTruthyEq (app.activeDocument.bind (fun d => d.fullNameAttr)) info.full_name
           || optTruthyEq (app.activeDocument.bind (fun d => d.nameAttr)) info.name) := by
  intro info hmem
  have hmem2 : info ∈ enumBuild app :=
    (List.perm_insertionSort (keyRel docKey pairLeB) (enumBuild app)).mem_iff.mp hmem
  unfold enumBuild at hmem2
  cases hl : _iter_documents app with
  | nil => exact absurd hl h
  | cons d0 rest =>
    rw [hl] at hmem2
    simp only [List.map_cons] at hmem2
    have hmem3 : info ∈ (d0 :: rest).map
        (buildInfo (app.activeDocument.bind (fun d => d.fullNameAttr))
          (app.activeDocument.bind (fun d => d.nameAttr))) := by
      simpa using hmem2
    obtain ⟨d, _, rfl⟩ := List.mem_map.mp hmem3
    rfl

/-- Witness for the amended C2 at the concrete state `c2App`. -/
theorem c2_amended_witness :
    ({ name := "x.dft", full_name := "C:\\a\\x.dft", document_type := "Draft",
       is_active := true } : DocumentInfo).is_active
      = (optTruthyEq (c2App.activeDocument.bind (fun d => d.fullNameAttr)) "C:\\a\\x.dft"
         || optTruthyEq (c2App.activeDocument.bind (fun d => d.nameAttr)) "x.dft") :=
  c2_amended c2App
    (by intro hh; exact absurd (congrArg List.length hh) (by decide))
    { name := "x.dft", full_name := "C:\\a\\x.dft", document_type := "Draft",
      is_active := true }
    (by decide)

/-! ### Claim C1 -/

/-- C1 counterexample: the matched document is a Draft that is not the host's
active document (their normalized full names differ), yet because it shares
the active document's name the write proceeds: the call returns `true` and a
subsequent read returns the new value `"new"` instead of the prior `"old"`. -/
theorem c1_counterexample :
    (set_active_draft_custom_properties c1App (some "C:\\a\\x.dft") (some "x.dft")
        [{ name := "Rev", type := "Text", value := PyVal.str "new" }]).1 = true
    ∧ ((set_active_draft_custom_properties c1App (some "C:\\a\\x.dft") (some "x.dft")
        [{ name := "Rev", type := "Text", value := PyVal.str "new" }]).2.map
          _read_document_custom_properties)
        = [[{ name := "Rev", type := "Text", value := PyVal.str "new" }]]
    ∧ _read_document_custom_properties c1Draft
        = [{ name := "Rev", type := "Text", value := PyVal.str "old" }]
    ∧ pathKeyStr (c1Draft.fullNameAttr.getD "") ≠ pathKeyStr (c1Active.fullNameAttr.getD "") := by
  exact ⟨by decide, by decide, by decide, by decide⟩

theorem writerScan_no_qualify (wf wn af an : String) (props : List CustomEntry) :
    ∀ l, (∀ d ∈ l, writerQualifiesB wf wn af an d = false) →
      writerScan wf wn af an props l = (false, l)
  | [], _ => rfl
  | d :: rest, h => by
    have hd := h d (List.mem_cons_self d rest)
    have hcond : ¬ (_resolve_document_type d.typeAttr (pathKeyStr (d.fullNameAttr.getD ""))
          (strip_lower (d.nameAttr.getD "")) = "Draft"
        ∧ ((wf ≠ "" ∧ pathKeyStr (d.fullNameAttr.getD "") ≠ ""
              ∧ pathKeyStr (d.fullNameAttr.getD "") = wf)
            ∨ (wf = "" ∧ wn ≠ "" ∧ strip_lower (d.nameAttr.getD "") = wn))
        ∧ ((af ≠ "" ∧ pathKeyStr (d.fullNameAttr.getD "") = af)
            ∨ (an ≠ "" ∧ strip_lower (d.nameAttr.getD "") = an))) := by
      intro hc
      rw [Bool.eq_false_iff] at hd
      apply hd
      unfold writerQualifiesB
      simp only [Bool.and_eq_true, Bool.or_eq_true, decide_eq_true_eq, and_assoc]
      exact hc
    show (if _resolve_document_type d.typeAttr (pathKeyStr (d.fullNameAttr.getD ""))
          (strip_lower (d.nameAttr.getD "")) = "Draft"
        ∧ ((wf ≠ "" ∧ pathKeyStr (d.fullNameAttr.getD "") ≠ ""
              ∧ pathKeyStr (d.fullNameAttr.getD "") = wf)
            ∨ (wf = "" ∧ wn ≠ "" ∧ strip_lower (d.nameAttr.getD "") = wn))
        ∧ ((af ≠ "" ∧ pathKeyStr (d.fullNameAttr.getD "") = af)
            ∨ (an ≠ "" ∧ strip_lower (d.nameAttr.getD "") = an)) then
        match _get_custom_property_set d with
        | Option.none => (false, d :: rest)
        | some custom_set =>
          (true, docUpdateCustomSet d (writeEntries custom_set.entries props) :: rest)
      else
        let r := writerScan wf wn af an props rest
        (r.1, d :: r.2)) = (false, d :: rest)
    rw [if_neg hcond]
    have hrest := writerScan_no_qualify wf wn af an props rest
      (fun x hx => h x (List.mem_cons_of_mem d hx))
    simp only [hrest]

/-- C1 amended: when no open document simultaneously is classified `Draft`,
matches the requested identity, and passes the code's active test — full name
equal to the active full name or name equal to the active name — the writer
returns `false` and every scanned document is left unchanged (so a subsequent
read returns the prior values).  The original claim's stronger guard, `false`
for any matched Draft that is not the host's active document, fails because
the active test also accepts a mere name match (see the counterexample). -/
theorem c1_amended (app : SEApp) (target_full_name target_name : Option String)
    (props : List CustomEntry)
    (h : ∀ document ∈ _iter_documents app,
        writerQualifiesB (_path_key target_full_name) (nameKey target_name)
          (pathKeyStr (match app.activeDocument with
                       | Option.none => ""
                       | some d => d.fullNameAttr.getD ""))
          (strip_lower (match app.activeDocument with
                        | Option.none => ""
                        | some d => d.nameAttr.getD ""))
          document = false) :
    set_active_draft_custom_properties app target_full_name target_name props
      = (false, _iter_documents app) := by
  unfold set_active_draft_custom_properties
  exact writerScan_no_qualify _ _ _ _ props (_iter_documents app) h

/-- Witness for the amended C1: requesting a full name that matches no open
document makes the writer return `false` with the documents unchanged. -/
theorem c1_amended_witness :
    set_active_draft_custom_properties c1App (some "C:\\zzz.dft") Option.none []
      = (false, _iter_documents c1App) :=
  c1_amended c1App (some "C:\\zzz.dft") Option.none [] (by decide)

/-! ### Claim C6 -/

theorem keyRel_active {a b : DocumentInfo} (h : keyRel docKey pairLeB a b)
    (hb : b.is_active = true) : a.is_active = true := by
  simp only [keyRel, pairLeB, docKey, hb, if_true, Bool.or_eq_true, Bool.and_eq_true,
    decide_eq_true_eq] at h
  by_cases ha : a.is_active = true
  · exact ha
  · rw [Bool.not_eq_true] at ha
    rw [ha] at h
    simp only [Bool.false_eq_true, if_false] at h
    rcases h with h | ⟨h, _⟩ <;> omega

theorem keyRel_names {a b : DocumentInfo} (h : keyRel docKey pairLeB a b)
    (ha : a.is_active = false) (hb : b.is_active = false) :
    strLeB (pyLower a.name).toList (pyLower b.name).toList = true := by
  simp only [keyRel, pairLeB, docKey, ha, hb, Bool.false_eq_true, if_false,
    Bool.or_eq_true, Bool.and_eq_true, decide_eq_true_eq] at h
  rcases h with h | ⟨_, h⟩
  · omega
  · exact h

/-- C6: the enumeration places an active document first whenever any marked
active document exists, marked-active documents form a prefix, the
non-active documents appear in ascending case-insensitive name order, the
result is a permutation of the pre-sort build, the sort is stable (every
sort-key class keeps its pre-sort order), and re-running the enumeration on
the same host state yields the identical result. -/
theorem c6_enumeration_order (app : SEApp) :
    ((get_open_documents app).1.any (fun i => i.is_active) = true →
        ∃ h0 t, (get_open_documents app).1 = h0 :: t ∧ h0.is_active = true)
    ∧ (get_open_documents app).1.Pairwise
        (fun a b => b.is_active = true → a.is_active = true)
    ∧ (get_open_documents app).1.Pairwise
        (fun a b => a.is_active = false → b.is_active = false →
          strLeB (pyLower a.name).toList (pyLower b.name).toList = true)
    ∧ List.Perm (get_open_documents app).1 (enumBuild app)
    ∧ (∀ k, (get_open_documents app).1.filter (fun a => docKey a = k)
        = (enumBuild app).filter (fun a => docKey a = k))
    ∧ get_open_documents app = get_open_documents app := by
  have hsorted : List.Sorted (keyRel docKey pairLeB) (get_open_documents app).1 :=
    List.sorted_insertionSort (keyRel docKey pairLeB) (enumBuild app)
  have hpw : (get_open_documents app).1.Pairwise
      (fun a b => b.is_active = true → a.is_active = true) :=
    hsorted.imp (fun h hb => keyRel_active h hb)
  refine ⟨?_, hpw, hsorted.imp (fun h ha hb => keyRel_names h ha hb),
    List.perm_insertionSort (keyRel docKey pairLeB) (enumBuild app),
    fun k => filter_key_insertionSort docKey pairLeB pairLeB_refl (enumBuild app) k, rfl⟩
  intro hany
  cases hl : (get_open_documents app).1 with
  | nil => rw [hl] at hany; simp at hany
  | cons h0 t =>
    refine ⟨h0, t, rfl, ?_⟩
    rw [hl] at hany hpw
    rcases List.any_eq_true.mp hany with ⟨x, hxmem, hxact⟩
    rcases List.mem_cons.mp hxmem with hx | hx
    · exact hx ▸ hxact
    · exact (List.pairwise_cons.mp hpw).1 x hx hxact

/-- Witness for C6 at the concrete state `c6App`: the active document comes
first. -/
theorem c6_witness :
    ((get_open_documents c6App).1.head?.map (fun i => i.is_active)) = some true := by
  obtain ⟨h0, t, hl, ha⟩ := (c6_enumeration_order c6App).1 (by decide)
  rw [hl]
  simp [ha]

/-! ### Claim C8 -/

theorem range_filterMap_zip {α : Type} (ok : Nat → Bool) :
    ∀ (l : List α) (s : Nat),
      (List.range' (s + 1) l.length).filterMap
          (fun i => if ok i then l[i - (s + 1)]? else Option.none)
        = ((l.zip (List.range' (s + 1) l.length)).filter (fun p => ok p.2)).map Prod.fst
  | [], _ => rfl
  | x :: xs, s => by
    show List.filterMap _ ((s + 1) :: List.range' (s + 1 + 1) xs.length) = _
    rw [List.filterMap_cons]
    have hcong : (List.range' (s + 1 + 1) xs.length).filterMap
        (fun i => if ok i then (x :: xs)[i - (s + 1)]? else Option.none)
        = (List.range' (s + 1 + 1) xs.length).filterMap
            (fun i => if ok i then xs[i - (s + 1 + 1)]? else Option.none) := by
      apply filterMap_congr_mem
      intro i hi
      obtain ⟨j, _, hij⟩ := List.mem_range'.mp hi
      have h1 : i - (s + 1) = (i - (s + 1 + 1)) + 1 := by omega
      rw [h1, List.getElem?_cons_succ]
    have hidx : s + 1 - (s + 1) = 0 := by omega
    rw [hcong, range_filterMap_zip ok xs (s + 1), hidx]
    show _ = ((((x, s + 1) :: xs.zip (List.range' (s + 1 + 1) xs.length))).filter
      (fun p => ok p.2)).map Prod.fst
    rw [List.filter_cons]
    by_cases hok : ok (s + 1)
    · simp [hok, List.getElem?_cons_zero]
    · simp [hok]

/-- C8: iteration equivalence across collection interfaces.  Native iteration
yields the underlying items; the `Count`/`Item` fallback with a full count
and no raising items yields the same sequence; an absent collection yields
nothing; a raising `Item(index)` only removes that item (the rest of the
iteration survives); the same holds for the documents collection; and the
whole enumeration gives the same result under either interface. -/
theorem c8_iteration_equivalence (α : Type) (items : List α) (countAttr : Option Int)
    (ok : Nat → Bool) (docs : List Doc) (active : Option Doc) (c : Option Int)
    (f : Nat → Bool) :
    _iter_com_collection (some (⟨items, true, countAttr, ok⟩ : ComCollection α)) = items
    ∧ _iter_com_collection
        (some (⟨items, false, some (items.length : Int), fun _ => true⟩ : ComCollection α))
        = items
    ∧ _iter_com_collection (Option.none : Option (ComCollection α)) = []
    ∧ _iter_com_collection
        (some (⟨items, false, some (items.length : Int), ok⟩ : ComCollection α))
        = ((items.zip (List.range' 1 items.length)).filter (fun p => ok p.2)).map Prod.fst
    ∧ _iter_documents ⟨some ⟨docs, true, c, f⟩, active⟩ = docs
    ∧ _iter_documents ⟨Option.none, active⟩ = []
    ∧ get_open_documents ⟨some ⟨docs, true, c, f⟩, active⟩
        = get_open_documents ⟨some ⟨docs, false, some (docs.length : Int), fun _ => true⟩,
            active⟩ := by
  have hfall : ∀ (β : Type) (l : List β),
      _iter_com_collection (some (⟨l, false, some (l.length : Int), ok⟩ : ComCollection β))
        = ((l.zip (List.range' 1 l.length)).filter (fun p => ok p.2)).map Prod.fst := by
    intro β l
    show (List.range' 1 ((some (l.length : Int)).getD 0).toNat).filterMap
        (fun index => if ok index then l[index - 1]? else Option.none) = _
    rw [show ((some (l.length : Int)).getD 0).toNat = l.length by simp]
    exact range_filterMap_zip ok l 0
  have hfull : ∀ (β : Type) (l : List β),
      _iter_com_collection
        (some (⟨l, false, some (l.length : Int), fun _ => true⟩ : ComCollection β)) = l := by
    intro β l
    show (List.range' 1 ((some (l.length : Int)).getD 0).toNat).filterMap
        (fun index => if true then l[index - 1]? else Option.none) = _
    rw [show ((some (l.length : Int)).getD 0).toNat = l.length by simp]
    rw [range_filterMap_zip (fun _ => true) l 0]
    rw [show (l.zip (List.range' 1 l.length)).filter (fun p => true)
      = l.zip (List.range' 1 l.length) from List.filter_true _]
    exact List.map_fst_zip l (List.range' 1 l.length) (by rw [List.length_range'])
  have hdocfull :
      _iter_documents ⟨some ⟨docs, false, some (docs.length : Int), fun _ => true⟩, active⟩
        = docs := by
    show (List.range' 1 ((some (docs.length : Int)).getD 0).toNat).filterMap
        (fun index => if true then docs[index - 1]? else Option.none) = _
    rw [show ((some (docs.length : Int)).getD 0).toNat = docs.length by simp]
    rw [range_filterMap_zip (fun _ => true) docs 0]
    rw [show (docs.zip (List.range' 1 docs.length)).filter (fun p => true)
      = docs.zip (List.range' 1 docs.length) from List.filter_true _]
    exact List.map_fst_zip docs (List.range' 1 docs.length) (by rw [List.length_range'])
  refine ⟨rfl, hfull α items, rfl, hfall α items, rfl, rfl, ?_⟩
  unfold get_open_documents
  have henum : enumBuild ⟨some ⟨docs, true, c, f⟩, active⟩
      = enumBuild ⟨some ⟨docs, false, some (docs.length : Int), fun _ => true⟩, active⟩ := by
    unfold enumBuild
    rw [show _iter_documents ⟨some ⟨docs, true, c, f⟩, active⟩ = docs from rfl, hdocfull]
  rw [henum]

end SEEngine
